import Mathlib

/-!
# Poll results: the voter pagination controller

A shallow embedding of `Info::Polls::ListController`
(`info/polls/info_polls_results_inner_widget.cpp`): the per-answer controller
that pages through the voters of one poll answer.

The controller is single threaded and event driven, so every member function
is a pure function on the controller state.  The state holds the members of
the class, the rows of the peer list it drives (reached through `delegate()`)
and the requests its own `MTP::Sender _api` has outstanding.

The counters are C++ `int`s, held here as integers; the one subtraction done
on a number the server sent (the remaining count of the success handler) is
reduced to the 32-bit range, as the compiled code does.
-/

namespace Info.Polls

/-- Identity of a voter: the peer id of a `UserData`. -/
abbrev UserId := Nat

/-- The continuation cursor is a `QString`. -/
abbrev QString := String

/-- The call `QString::isEmpty`. -/
def isEmpty (s : QString) : Bool := decide (s = "")

def kFirstPage : Int := 15

def kPerPage : Int := 50

def kLeavePreloaded : Int := 5

/-- The value a 32-bit `int` holds after an operation whose exact result is
`x`: two's complement wrap-around. -/
def wrapInt32 (x : Int) : Int := (x + 2147483648) % 4294967296 - 2147483648

/-- Whether `x` is a value of a 32-bit `int`. -/
def inInt32 (x : Int) : Bool := decide (-2147483648 ≤ x ∧ x < 2147483648)

/-- What `session().data().message(_context)` finds: the item's id and the
answer of `IsServerMsgId(item->id)` (a function declared elsewhere). -/
structure HistoryItem where
  id : Int
  isServerMsgId : Bool
deriving DecidableEq, Repr

/-- The request `MTPmessages_GetPollVotes` as `loadMoreRows` builds it
(the peer and the option key are constants of the controller). -/
structure GetPollVotes where
  withOffset : Bool
  msgId : Int
  offset : QString
  limit : Int
deriving DecidableEq, Repr

/-- Modelled from the spec: `MTP::Sender` is declared outside this file. It
keeps the requests that were sent and have neither completed, failed nor been
cancelled, each under the non-zero id `send()` returned for it. -/
structure Sender where
  lastId : Nat
  pending : List (Nat × GetPollVotes)
deriving DecidableEq, Repr

/-- The call `_api.request(...).done(...).fail(...).send()`: the request
becomes outstanding under a fresh non-zero id. -/
def Sender.send (api : Sender) (req : GetPollVotes) : Nat × Sender :=
  (api.lastId + 1,
    { lastId := api.lastId + 1, pending := api.pending ++ [(api.lastId + 1, req)] })

/-- The call `_api.request(requestId).cancel()`; a completed or failed request
leaves the sender the same way. -/
def Sender.cancel (api : Sender) (id : Nat) : Sender :=
  { api with pending := api.pending.filter (fun p => p.1 != id) }

/-- The answer `MTPDmessages_votesList`: total count, the voters in response
order, and `vnext_offset().value_or_empty()`. -/
structure VotesList where
  count : Int
  votes : List UserId
  nextOffset : QString
deriving DecidableEq, Repr

/-- The members of `ListController` that change, with the rows of its peer
list (`delegate()`); a request id of 0 means no request is in flight. -/
structure ListController where
  rows : List UserId
  api : Sender
  offset : QString
  loadRequestId : Nat
  loadForOffset : QString
  preloaded : List UserId
  leftToLoad : Int
  fullCount : Int
deriving DecidableEq, Repr

/-- The constructor, for an answer that has `votes` votes. -/
def ListController.create (votes : Int) : ListController :=
  { rows := [], api := { lastId := 0, pending := [] }, offset := "", loadRequestId := 0,
    loadForOffset := "", preloaded := [], leftToLoad := votes, fullCount := votes }

/-- Modelled from the spec: `delegate()->peerListFindRow(id)`, declared
outside this file, tells whether the visible list has a row of that identity. -/
def peerListFindRow (rows : List UserId) (id : UserId) : Bool := decide (id ∈ rows)

/-- Modelled from the spec: `delegate()->peerListAppendRow(row)`, declared
outside this file, puts the row at the end of the visible list. -/
def peerListAppendRow (rows : List UserId) (row : UserId) : List UserId := rows ++ [row]

/-- Modelled from the spec: `delegate()->peerListFullRowsCount()`, declared
outside this file, is the number of rows of the visible list. -/
def peerListFullRowsCount (rows : List UserId) : Int := rows.length

/-- The row built by `createRow(user)` is identified by the user. -/
def createRow (user : UserId) : UserId := user

def appendRow (user : UserId) (c : ListController) : Bool × ListController :=
  if peerListFindRow c.rows user then (false, c)
  else (true, { c with rows := peerListAppendRow c.rows (createRow user) })

/-- The request `loadMoreRows` builds for the cursor `offset`: the flag
`f_offset` and the page size `kPerPage` with a cursor, `kFirstPage` without. -/
def pollVotesRequest (it : HistoryItem) (offset : QString) : GetPollVotes :=
  let withOffset := !isEmpty offset
  let limit := if isEmpty offset then kFirstPage else kPerPage
  { withOffset := withOffset, msgId := it.id, offset := offset, limit := limit }

def loadMoreRows (item : Option HistoryItem) (c : ListController) : ListController :=
  if c.loadRequestId ≠ 0 ∨ c.leftToLoad = 0
      ∨ (isEmpty c.offset = false ∧ c.loadForOffset ≠ c.offset) then c
  else
    match item with
    | none => { c with leftToLoad := 0 }
    | some it =>
      if it.isServerMsgId = false then { c with leftToLoad := 0 }
      else
        let sent := c.api.send (pollVotesRequest it c.offset)
        { c with api := sent.2, loadRequestId := sent.1 }

/-- The loop of the success handler over `data.vvotes()`: `loaded u` is
`owner.user(u)->loadedStatus != PeerData::NotLoaded` once the users of the
response were processed, `add` the number of rows still shown directly. -/
def addVotes (loaded : UserId → Bool) : List UserId → Int → ListController → ListController
  | [], _, c => c
  | u :: us, add, c =>
    if loaded u then
      if add ≠ 0 then addVotes loaded us (add - 1) (appendRow u c).2
      else addVotes loaded us add { c with preloaded := c.preloaded ++ [u] }
    else addVotes loaded us add c

def addPreloaded (c : ListController) : ListController :=
  c.preloaded.foldl (fun d user => (appendRow user d).2) { c with preloaded := [] }

/-- The `.done` handler of the request sent with page size `limit`. The
remaining count `count - peerListFullRowsCount()` is an `int` subtraction of a
32-bit count and an `int` row count, so it wraps around. -/
def loadDone (limit : Int) (loaded : UserId → Bool) (result : VotesList)
    (c : ListController) : ListController :=
  let c1 := { c with offset := result.nextOffset }
  let c2 := addVotes loaded result.votes (limit - kLeavePreloaded) c1
  let count := result.count
  let c3 :=
    if isEmpty c2.offset then
      let c4 := addPreloaded c2
      { c4 with fullCount := peerListFullRowsCount c4.rows, leftToLoad := 0 }
    else
      { c2 with fullCount := count,
                leftToLoad := wrapInt32 (count - peerListFullRowsCount c2.rows) }
  { c3 with loadRequestId := 0 }

/-- The `.fail` handler. -/
def loadFail (c : ListController) : ListController :=
  { c with loadRequestId := 0 }

/-- The sender completes the outstanding request `id` with an answer: the
request is no longer outstanding and its `.done` handler runs, with the page
size it captured. An id that is not outstanding gets no answer. -/
def deliverDone (id : Nat) (loaded : UserId → Bool) (result : VotesList)
    (c : ListController) : ListController :=
  match c.api.pending.lookup id with
  | none => c
  | some req => loadDone req.limit loaded result { c with api := c.api.cancel id }

/-- The sender fails the outstanding request `id`. -/
def deliverFail (id : Nat) (c : ListController) : ListController :=
  match c.api.pending.lookup id with
  | none => c
  | some _ => loadFail { c with api := c.api.cancel id }

def allowLoadMore (item : Option HistoryItem) (c : ListController) : ListController :=
  let c1 := { c with loadForOffset := c.offset }
  let c2 := addPreloaded c1
  loadMoreRows item c2

structure SavedState where
  offset : QString
  loadForOffset : QString
  leftToLoad : Int
  fullCount : Int
  preloaded : List UserId
  wasLoading : Bool
deriving DecidableEq, Repr

/-- Modelled from the spec: `PeerListState` is declared outside this file. It
carries the peers of the visible rows and the controller's own state, absent
when another kind of controller saved it. -/
structure PeerListState where
  list : List UserId
  controllerState : Option SavedState
deriving DecidableEq, Repr

/-- Modelled from the spec: the base `PeerListController::saveState`, defined
outside this file, records the visible list. -/
def PeerListController.saveState (c : ListController) : PeerListState :=
  { list := c.rows, controllerState := none }

/-- Every peer of this list is a user, so `peer->asUser()` never fails. -/
def createRestoredRow (peer : UserId) : Option UserId := some (createRow peer)

/-- Modelled from the spec: the base `PeerListController::restoreState` is not
in this file; it rebuilds the visible list from the saved peers, each through
`createRestoredRow`. -/
def PeerListController.restoreState (state : PeerListState) (c : ListController) :
    ListController :=
  { c with rows := state.list.filterMap createRestoredRow }

def saveState (c : ListController) : PeerListState :=
  let result := PeerListController.saveState c
  { result with
    controllerState := some
      { offset := c.offset, leftToLoad := c.leftToLoad, fullCount := c.fullCount,
        preloaded := c.preloaded, wasLoading := decide (c.loadRequestId ≠ 0),
        loadForOffset := c.loadForOffset } }

def restoreState (item : Option HistoryItem) (state : Option PeerListState)
    (c : ListController) : ListController :=
  match state with
  | none => c
  | some st =>
    match st.controllerState with
    | none => c
    | some my =>
      let c1 :=
        if c.loadRequestId ≠ 0 then
          { c with loadRequestId := 0, api := c.api.cancel c.loadRequestId }
        else c
      let c2 := { c1 with offset := my.offset, loadForOffset := my.loadForOffset,
                          preloaded := my.preloaded }
      let c3 := if my.wasLoading then loadMoreRows item c2 else c2
      let c4 := { c3 with leftToLoad := my.leftToLoad, fullCount := my.fullCount }
      PeerListController.restoreState st c4

/-! ## Traces -/

/-- What can happen to a controller: a call of one of its member functions
(with what the message store then answers for the context message), or the
sender completing or failing a request. -/
inductive Event where
  | loadMoreRows (item : Option HistoryItem)
  | allowLoadMore (item : Option HistoryItem)
  | done (id : Nat) (loaded : UserId → Bool) (result : VotesList)
  | fail (id : Nat)
  | saveState
  | restoreState (item : Option HistoryItem) (state : Option PeerListState)

def step (c : ListController) : Event → ListController
  | .loadMoreRows item => loadMoreRows item c
  | .allowLoadMore item => allowLoadMore item c
  | .done id loaded result => deliverDone id loaded result c
  | .fail id => deliverFail id c
  | .saveState => c
  | .restoreState item state => restoreState item state c

def run (c : ListController) (events : List Event) : ListController :=
  events.foldl step c

/-- The events of plain paging: no save and no restore. -/
def Event.isPaging : Event → Bool
  | .saveState => false
  | .restoreState _ _ => false
  | _ => true

/-- The resolvable voters of the successful answers the controller `c` gets in
a trace: an answer for an id that is not outstanding is never delivered. -/
def deliveredVoters : ListController → List Event → List UserId
  | _, [] => []
  | c, .done id loaded result :: es =>
    (if (c.api.pending.lookup id).isSome then result.votes.filter loaded else [])
      ++ deliveredVoters (step c (.done id loaded result)) es
  | c, e :: es => deliveredVoters (step c e) es

/-- The states a controller can be in: built by the constructor, changed by a
paging event, or restored from what `saveState` saved of such a state of a
controller of the same answer. -/
inductive Reachable : ListController → Prop where
  | create (votes : Int) : Reachable (ListController.create votes)
  | step (c : ListController) (e : Event) :
      Reachable c → e.isPaging = true → Reachable (step c e)
  | restore (item : Option HistoryItem) (s t : ListController) :
      Reachable s → Reachable t → Reachable (restoreState item (some (saveState s)) t)

/-! ## Predicates on states -/

/-- The ids of the outstanding requests are ids the sender gave out: the next
id it gives out is fresh. -/
def Sender.WellFormed (api : Sender) : Prop :=
  ∀ p ∈ api.pending, p.1 ≤ api.lastId

/-- The controller tracks the one request its sender has outstanding, if any. -/
def Tracked (c : ListController) : Prop :=
  (c.loadRequestId = 0 ∧ c.api.pending = [])
  ∨ (c.loadRequestId ≠ 0 ∧ ∃ req, c.api.pending = [(c.loadRequestId, req)])

/-- No row is visible twice, and the visible and the preloaded voters all come
out of `known`. -/
def Within (known : List UserId) (c : ListController) : Prop :=
  c.rows.Nodup ∧ (∀ u ∈ c.rows, u ∈ known) ∧ (∀ u ∈ c.preloaded, u ∈ known)

/-- The load-permitted cursor differs from the cursor only while no request is
in flight, and from an empty cursor only when nothing remains to load. -/
def CursorsAgree (c : ListController) : Prop :=
  c.loadForOffset ≠ c.offset → c.loadRequestId = 0 ∧ (c.offset = "" → c.leftToLoad = 0)

/-! ## Compound steps the statements speak of -/

/-- A call of `loadMoreRows` followed at once by the success of the request
it sent. -/
def loadThenDone (it : HistoryItem) (loaded : UserId → Bool) (result : VotesList)
    (c : ListController) : ListController :=
  deliverDone (loadMoreRows (some it) c).loadRequestId loaded result (loadMoreRows (some it) c)

/-- A call of `loadMoreRows` followed at once by the failure of the request
it sent. -/
def loadThenFail (item : Option HistoryItem) (c : ListController) : ListController :=
  deliverFail (loadMoreRows item c).loadRequestId (loadMoreRows item c)

/-- The state `allowLoadMore` hands to `loadMoreRows`: the cursor committed
and the preload buffer flushed. -/
def allowLoadMoreFlushed (c : ListController) : ListController :=
  addPreloaded { c with loadForOffset := c.offset }

/-- The sender of a controller once `restoreState` has cancelled the request
the controller tracked. -/
def apiAfterCancel (t : ListController) : Sender :=
  if t.loadRequestId ≠ 0 then t.api.cancel t.loadRequestId else t.api

/-! ## Sample inputs -/

/-- A sample message that exists and has a server id. -/
def sampleItem : HistoryItem := { id := 7, isServerMsgId := true }

/-- A first page of an answer with 60 votes: 15 voters and a next cursor. -/
def sampleFirstPage : VotesList :=
  { count := 60, votes := [1, 2, 3, 4, 5, 6, 7, 8, 9, 10, 11, 12, 13, 14, 15],
    nextOffset := "a" }

/-- A last page: two voters and no next cursor. -/
def sampleLastPage : VotesList :=
  { count := 6, votes := [4, 5], nextOffset := "" }

/-- A sample state with a request for the second page in flight. -/
def sampleLoading : ListController :=
  { rows := [1, 2], api := { lastId := 2, pending := [(2, pollVotesRequest sampleItem "a")] },
    offset := "a", loadRequestId := 2, loadForOffset := "a", preloaded := [3],
    leftToLoad := 4, fullCount := 6 }

/-- A sample state no request left behind: a first cursor was received and the
user has not yet asked for more. -/
def sampleWaiting : ListController :=
  { rows := [1, 2], api := { lastId := 1, pending := [] }, offset := "a", loadRequestId := 0,
    loadForOffset := "", preloaded := [3], leftToLoad := 4, fullCount := 6 }

/-- A sample state after the last page: nothing remains to load. -/
def sampleDrained : ListController :=
  { rows := [1, 2], api := { lastId := 1, pending := [] }, offset := "", loadRequestId := 0,
    loadForOffset := "", preloaded := [], leftToLoad := 0, fullCount := 2 }

/-- The state of an answer with 60 votes once its first page has come. -/
def sampleAfterFirstPage : ListController :=
  step (step (ListController.create 60) (.loadMoreRows (some sampleItem)))
    (.done 1 (fun _ => true) sampleFirstPage)

/-- A first page of an answer with 3 votes: two voters and a next cursor. -/
def sampleGrowingFirst : VotesList :=
  { count := 3, votes := [1, 2], nextOffset := "a" }

/-- The last page of that answer, another vote having been cast meanwhile. -/
def sampleGrowingLast : VotesList :=
  { count := 4, votes := [3, 4], nextOffset := "" }

/-- A sample trace: an answer gets a vote while its voters are paged. -/
def sampleGrowing : List Event :=
  [.loadMoreRows (some sampleItem), .done 1 (fun _ => true) sampleGrowingFirst,
    .allowLoadMore (some sampleItem), .done 2 (fun _ => true) sampleGrowingLast]

/-! ## appendRow -/

theorem appendRow_of_mem (u : UserId) (c : ListController) (h : u ∈ c.rows) :
    appendRow u c = (false, c) := by
  simp [appendRow, peerListFindRow, h]

theorem appendRow_of_not_mem (u : UserId) (c : ListController) (h : u ∉ c.rows) :
    appendRow u c = (true, { c with rows := c.rows ++ [u] }) := by
  simp [appendRow, peerListFindRow, peerListAppendRow, createRow, h]

/-- C9: appending a voter whose identity the visible list already holds
leaves the list (and the whole controller) unchanged and returns false; so
appending a voter twice gives the same list, of the same size, as once. -/
theorem appendRow_idempotent (u : UserId) (c : ListController) :
    (u ∈ c.rows → appendRow u c = (false, c))
    ∧ (appendRow u (appendRow u c).2).1 = false
    ∧ (appendRow u (appendRow u c).2).2 = (appendRow u c).2
    ∧ (appendRow u (appendRow u c).2).2.rows.length = (appendRow u c).2.rows.length := by
  have hmem : u ∈ (appendRow u c).2.rows := by
    by_cases h : u ∈ c.rows
    · simp [appendRow_of_mem u c h, h]
    · simp [appendRow_of_not_mem u c h]
  have h2 := appendRow_of_mem u (appendRow u c).2 hmem
  exact ⟨appendRow_of_mem u c, by rw [h2], by rw [h2], by rw [h2]⟩

/-! ## loadMoreRows -/

theorem loadMoreRows_blocked (item : Option HistoryItem) (c : ListController)
    (h : c.loadRequestId ≠ 0 ∨ c.leftToLoad = 0
      ∨ (c.offset ≠ "" ∧ c.loadForOffset ≠ c.offset)) :
    loadMoreRows item c = c := by
  unfold loadMoreRows
  rw [if_pos]
  simpa [isEmpty] using h

theorem loadMoreRows_sends (it : HistoryItem) (c : ListController)
    (h1 : c.loadRequestId = 0) (h2 : c.leftToLoad ≠ 0)
    (h3 : c.offset = "" ∨ c.loadForOffset = c.offset) (h4 : it.isServerMsgId = true) :
    loadMoreRows (some it) c =
      { c with api := (c.api.send (pollVotesRequest it c.offset)).2,
               loadRequestId := c.api.lastId + 1 } := by
  unfold loadMoreRows
  rw [if_neg]
  · simp [h4, Sender.send]
  · simp only [isEmpty, decide_eq_false_iff_not, not_or, not_and, not_not]
    refine ⟨by simpa using h1, h2, ?_⟩
    intro h
    rcases h3 with h3 | h3
    · exact absurd h3 h
    · exact h3

theorem loadMoreRows_api_ne (item : Option HistoryItem) (c : ListController)
    (h : (loadMoreRows item c).api ≠ c.api) :
    c.loadRequestId = 0 ∧ c.leftToLoad ≠ 0 ∧ (c.offset = "" ∨ c.loadForOffset = c.offset)
      ∧ ∃ it, item = some it ∧ it.isServerMsgId = true := by
  unfold loadMoreRows at h
  split_ifs at h with hg
  · exact absurd rfl h
  · simp only [isEmpty, decide_eq_false_iff_not, not_or, not_and, not_not] at hg
    obtain ⟨g1, g2, g3⟩ := hg
    refine ⟨g1, g2, ?_, ?_⟩
    · by_cases ho : c.offset = ""
      · exact Or.inl ho
      · exact Or.inr (g3 ho)
    · cases item with
      | none => exact absurd rfl h
      | some it =>
        refine ⟨it, rfl, ?_⟩
        by_cases hs : it.isServerMsgId = true
        · exact hs
        · simp [hs] at h

theorem lookup_append_fresh (l : List (Nat × GetPollVotes)) (id : Nat) (req : GetPollVotes)
    (h : ∀ p ∈ l, p.1 ≠ id) : (l ++ [(id, req)]).lookup id = some req := by
  induction l with
  | nil => simp [List.lookup]
  | cons p l ih =>
    obtain ⟨a, b⟩ := p
    have hne : (id == a) = false := by
      simp only [beq_eq_false_iff_ne, ne_eq]
      exact fun e => h (a, b) (List.mem_cons_self _ _) e.symm
    simp only [List.cons_append, List.lookup, hne]
    exact ih (fun q hq => h q (List.mem_cons_of_mem _ hq))

theorem filter_append_fresh (l : List (Nat × GetPollVotes)) (id : Nat) (req : GetPollVotes)
    (h : ∀ p ∈ l, p.1 ≠ id) :
    (l ++ [(id, req)]).filter (fun p => p.1 != id) = l := by
  rw [List.filter_append]
  have h1 : l.filter (fun p => p.1 != id) = l := by
    rw [List.filter_eq_self]
    intro p hp
    simpa using h p hp
  simp [h1]

theorem send_then_cancel (api : Sender) (req : GetPollVotes) (h : api.WellFormed) :
    (api.send req).2.pending.lookup (api.lastId + 1) = some req
    ∧ (api.send req).2.cancel (api.lastId + 1) = { api with lastId := api.lastId + 1 } := by
  have hne : ∀ p ∈ api.pending, p.1 ≠ api.lastId + 1 := by
    intro p hp
    have := h p hp
    omega
  refine ⟨lookup_append_fresh _ _ _ hne, ?_⟩
  simp only [Sender.cancel, Sender.send]
  rw [filter_append_fresh _ _ _ hne]

theorem lookup_append_self (l : List (Nat × GetPollVotes)) (id : Nat) (req : GetPollVotes) :
    ((l ++ [(id, req)]).lookup id).isSome = true := by
  induction l with
  | nil => simp [List.lookup]
  | cons p l ih =>
    obtain ⟨a, b⟩ := p
    by_cases h : id = a
    · simp [List.lookup, h]
    · have hne : (id == a) = false := by simpa using h
      simp only [List.cons_append, List.lookup, hne]
      exact ih

/-- C2: when `loadMoreRows` sends a request and that request fails, the cursor,
the load-permitted cursor, the remaining count, the total count, the preload
buffer and the visible rows are what they were before the call, no request is
in flight, and the failure handler sent nothing: the sender gave out no further
id and has no request outstanding that it had not before the call (with a
well-formed sender, exactly those it had before). -/
theorem loadMoreRows_fail_restores (item : Option HistoryItem) (c : ListController)
    (hsend : (loadMoreRows item c).api ≠ c.api) :
    (loadThenFail item c).offset = c.offset
    ∧ (loadThenFail item c).loadForOffset = c.loadForOffset
    ∧ (loadThenFail item c).leftToLoad = c.leftToLoad
    ∧ (loadThenFail item c).fullCount = c.fullCount
    ∧ (loadThenFail item c).preloaded = c.preloaded
    ∧ (loadThenFail item c).rows = c.rows
    ∧ (loadThenFail item c).loadRequestId = 0
    ∧ (loadThenFail item c).api.lastId = (loadMoreRows item c).api.lastId
    ∧ (∀ p ∈ (loadThenFail item c).api.pending, p ∈ c.api.pending)
    ∧ (c.api.WellFormed → (loadThenFail item c).api.pending = c.api.pending) := by
  obtain ⟨h1, h2, h3, it, rfl, h4⟩ := loadMoreRows_api_ne item c hsend
  have hs := lookup_append_self c.api.pending (c.api.lastId + 1) (pollVotesRequest it c.offset)
  obtain ⟨req, hreq⟩ := Option.isSome_iff_exists.mp hs
  have key : loadThenFail (some it) c =
      { c with api := (c.api.send (pollVotesRequest it c.offset)).2.cancel (c.api.lastId + 1),
               loadRequestId := 0 } := by
    unfold loadThenFail
    rw [loadMoreRows_sends it c h1 h2 h3 h4]
    have hreq2 : List.lookup (c.api.lastId + 1)
        (c.api.send (pollVotesRequest it c.offset)).2.pending = some req := hreq
    simp only [deliverFail, hreq2, loadFail]
  rw [key, loadMoreRows_sends it c h1 h2 h3 h4]
  refine ⟨rfl, rfl, rfl, rfl, rfl, rfl, rfl, rfl, ?_, ?_⟩
  · intro p hp
    simp only [Sender.cancel, Sender.send, List.mem_filter, List.mem_append,
      List.mem_singleton] at hp
    obtain ⟨hp1, hp2⟩ := hp
    rcases hp1 with hp1 | hp1
    · exact hp1
    · rw [hp1] at hp2
      simp at hp2
  · intro hwf
    show ((c.api.send (pollVotesRequest it c.offset)).2.cancel (c.api.lastId + 1)).pending = _
    rw [(send_then_cancel c.api (pollVotesRequest it c.offset) hwf).2]

/-- C2 witness: the first request of an answer with 60 votes fails. -/
theorem loadMoreRows_fail_restores_witness :
    (loadMoreRows (some sampleItem) (ListController.create 60)).api
        ≠ (ListController.create 60).api
    ∧ (loadThenFail (some sampleItem) (ListController.create 60)).loadRequestId = 0
    ∧ (loadThenFail (some sampleItem) (ListController.create 60)).leftToLoad = 60 :=
  ⟨by decide,
    (loadMoreRows_fail_restores (some sampleItem) (ListController.create 60)
      (by decide)).2.2.2.2.2.2.1,
    (loadMoreRows_fail_restores (some sampleItem) (ListController.create 60)
      (by decide)).2.2.1⟩

/-! ## The loops over voters -/

theorem appendRow_snd (u : UserId) (c : ListController) :
    (appendRow u c).2 = { c with rows := if u ∈ c.rows then c.rows else c.rows ++ [u] } := by
  by_cases h : u ∈ c.rows
  · simp [appendRow_of_mem u c h, h]
  · simp [appendRow_of_not_mem u c h, h]

/-- What a loop over voters may do to a controller: it touches the visible
rows and the preload buffer only, keeps the rows it found in place, adds only
voters out of `new`, and adds no row twice. -/
theorem appendRow_grows (u : UserId) (c : ListController) :
    (appendRow u c).2 = { c with rows := (appendRow u c).2.rows }
    ∧ (∃ t, (appendRow u c).2.rows = c.rows ++ t ∧ ∀ v ∈ t, v = u)
    ∧ u ∈ (appendRow u c).2.rows
    ∧ (c.rows.Nodup → (appendRow u c).2.rows.Nodup) := by
  by_cases h : u ∈ c.rows
  · have e : (appendRow u c).2 = c := by rw [appendRow_of_mem u c h]
    rw [e]
    exact ⟨rfl, ⟨[], by simp⟩, h, id⟩
  · have e : (appendRow u c).2 = { c with rows := c.rows ++ [u] } := by
      rw [appendRow_of_not_mem u c h]
    rw [e]
    refine ⟨rfl, ⟨[u], rfl, by simp⟩, by simp, ?_⟩
    intro hn
    exact List.Nodup.append hn (List.nodup_singleton u) (by simpa using h)

/-- The fields a loop over voters leaves alone. -/
theorem addVotes_frame (loaded : UserId → Bool) (votes : List UserId) (add : Int)
    (c : ListController) :
    addVotes loaded votes add c =
      { c with rows := (addVotes loaded votes add c).rows,
               preloaded := (addVotes loaded votes add c).preloaded } := by
  induction votes generalizing add c with
  | nil => simp [addVotes]
  | cons u us ih =>
    simp only [addVotes]
    split_ifs with h1 h2
    · rw [ih]
      simp only [appendRow_snd]
    · rw [ih]
    · exact ih add c

theorem addVotes_exact (loaded : UserId → Bool) (votes : List UserId) (k : Nat)
    (c : ListController) (hl : ∀ u ∈ votes, loaded u = true) (hn : votes.Nodup)
    (hd : ∀ u ∈ votes, u ∉ c.rows) :
    addVotes loaded votes (k : Int) c =
      { c with rows := c.rows ++ votes.take k, preloaded := c.preloaded ++ votes.drop k } := by
  induction votes generalizing k c with
  | nil => simp [addVotes]
  | cons u us ih =>
    have hlu : loaded u = true := hl u (List.mem_cons_self _ _)
    have hl2 : ∀ v ∈ us, loaded v = true := fun v hv => hl v (List.mem_cons_of_mem _ hv)
    have hn2 : us.Nodup := (List.nodup_cons.mp hn).2
    have hu : u ∉ us := (List.nodup_cons.mp hn).1
    have hur : u ∉ c.rows := hd u (List.mem_cons_self _ _)
    have hd2 : ∀ v ∈ us, v ∉ c.rows := fun v hv => hd v (List.mem_cons_of_mem _ hv)
    cases k with
    | zero =>
      simp only [addVotes, hlu, if_true, Nat.cast_zero, ne_eq, not_true_eq_false, if_false]
      have := ih 0 { c with preloaded := c.preloaded ++ [u] } hl2 hn2 hd2
      simp only [Nat.cast_zero] at this
      rw [this]
      simp
    | succ k =>
      have hk : ((k + 1 : Nat) : Int) ≠ 0 := by omega
      simp only [addVotes, hlu, if_true, ne_eq, hk, not_false_eq_true]
      have hk2 : ((k + 1 : Nat) : Int) - 1 = (k : Int) := by omega
      rw [hk2, appendRow_of_not_mem u c hur]
      have hd3 : ∀ v ∈ us, v ∉ ({ c with rows := c.rows ++ [u] } : ListController).rows := by
        intro v hv
        simp only [List.mem_append, List.mem_singleton, not_or]
        exact ⟨hd2 v hv, fun e => hu (e ▸ hv)⟩
      rw [ih k _ hl2 hn2 hd3]
      simp

theorem addVotes_grows (loaded : UserId → Bool) (votes : List UserId) (add : Int)
    (c : ListController) :
    (∀ v ∈ (addVotes loaded votes add c).rows, v ∈ c.rows ∨ (v ∈ votes ∧ loaded v = true))
    ∧ (∀ v ∈ (addVotes loaded votes add c).preloaded,
        v ∈ c.preloaded ∨ (v ∈ votes ∧ loaded v = true))
    ∧ (c.rows.Nodup → (addVotes loaded votes add c).rows.Nodup)
    ∧ (∀ v ∈ c.rows, v ∈ (addVotes loaded votes add c).rows)
    ∧ (∀ v ∈ c.preloaded, v ∈ (addVotes loaded votes add c).preloaded)
    ∧ (∀ v ∈ votes, loaded v = true →
        v ∈ (addVotes loaded votes add c).rows ∨ v ∈ (addVotes loaded votes add c).preloaded) := by
  induction votes generalizing add c with
  | nil => simp [addVotes]
  | cons u us ih =>
    simp only [addVotes]
    split_ifs with h1 h2
    · obtain ⟨i1, i2, i3, i4, i5, i6⟩ := ih (add - 1) (appendRow u c).2
      obtain ⟨g1, ⟨t, g2, g3⟩, g4, g5⟩ := appendRow_grows u c
      have gp : (appendRow u c).2.preloaded = c.preloaded := by rw [g1]
      refine ⟨?_, ?_, fun hn => i3 (g5 hn), ?_, ?_, ?_⟩
      · intro v hv
        rcases i1 v hv with h | ⟨h, hl⟩
        · rw [g2, List.mem_append] at h
          rcases h with h | h
          · exact Or.inl h
          · exact Or.inr ⟨by rw [g3 v h]; exact List.mem_cons_self _ _, by rw [g3 v h]; exact h1⟩
        · exact Or.inr ⟨List.mem_cons_of_mem _ h, hl⟩
      · intro v hv
        rcases i2 v hv with h | ⟨h, hl⟩
        · exact Or.inl (gp ▸ h)
        · exact Or.inr ⟨List.mem_cons_of_mem _ h, hl⟩
      · intro v hv
        exact i4 v (by rw [g2]; exact List.mem_append_left _ hv)
      · intro v hv
        exact i5 v (by rw [gp]; exact hv)
      · intro v hv hl
        rcases List.mem_cons.mp hv with e | hv
        · exact Or.inl (i4 v (e ▸ g4))
        · exact i6 v hv hl
    · obtain ⟨i1, i2, i3, i4, i5, i6⟩ := ih add { c with preloaded := c.preloaded ++ [u] }
      refine ⟨?_, ?_, i3, i4, ?_, ?_⟩
      · intro v hv
        rcases i1 v hv with h | ⟨h, hl⟩
        · exact Or.inl h
        · exact Or.inr ⟨List.mem_cons_of_mem _ h, hl⟩
      · intro v hv
        rcases i2 v hv with h | ⟨h, hl⟩
        · simp only [List.mem_append, List.mem_singleton] at h
          rcases h with h | h
          · exact Or.inl h
          · exact Or.inr ⟨by rw [h]; exact List.mem_cons_self _ _, by rw [h]; exact h1⟩
        · exact Or.inr ⟨List.mem_cons_of_mem _ h, hl⟩
      · intro v hv
        exact i5 v (by simp [hv])
      · intro v hv hl
        rcases List.mem_cons.mp hv with e | hv
        · exact Or.inr (i5 v (by simp [e]))
        · exact i6 v hv hl
    · obtain ⟨i1, i2, i3, i4, i5, i6⟩ := ih add c
      refine ⟨?_, ?_, i3, i4, i5, ?_⟩
      · intro v hv
        rcases i1 v hv with h | ⟨h, hl⟩
        · exact Or.inl h
        · exact Or.inr ⟨List.mem_cons_of_mem _ h, hl⟩
      · intro v hv
        rcases i2 v hv with h | ⟨h, hl⟩
        · exact Or.inl h
        · exact Or.inr ⟨List.mem_cons_of_mem _ h, hl⟩
      · intro v hv hl
        rcases List.mem_cons.mp hv with e | hv
        · rw [e] at hl
          exact absurd hl h1
        · exact i6 v hv hl

theorem foldl_appendRow_grows (l : List UserId) (d : ListController) :
    l.foldl (fun d user => (appendRow user d).2) d =
      { d with rows := (l.foldl (fun d user => (appendRow user d).2) d).rows }
    ∧ (∃ t, (l.foldl (fun d user => (appendRow user d).2) d).rows = d.rows ++ t
        ∧ ∀ v ∈ t, v ∈ l)
    ∧ (∀ v ∈ l, v ∈ (l.foldl (fun d user => (appendRow user d).2) d).rows)
    ∧ (d.rows.Nodup → (l.foldl (fun d user => (appendRow user d).2) d).rows.Nodup) := by
  induction l generalizing d with
  | nil => exact ⟨rfl, ⟨[], by simp⟩, by simp, by simp⟩
  | cons u us ih =>
    simp only [List.foldl_cons]
    obtain ⟨i1, ⟨t, i2, i3⟩, i4, i5⟩ := ih (appendRow u d).2
    obtain ⟨g1, ⟨s, g2, g3⟩, g4, g5⟩ := appendRow_grows u d
    refine ⟨?_, ⟨s ++ t, ?_, ?_⟩, ?_, fun hn => i5 (g5 hn)⟩
    · rw [i1]
      rw [g1]
    · rw [i2, g2, List.append_assoc]
    · intro v hv
      rcases List.mem_append.mp hv with h | h
      · rw [g3 v h]; exact List.mem_cons_self _ _
      · exact List.mem_cons_of_mem _ (i3 v h)
    · intro v hv
      rcases List.mem_cons.mp hv with e | h
      · rw [i2]; exact List.mem_append_left _ (e ▸ g4)
      · exact i4 v h

theorem addPreloaded_grows (c : ListController) :
    addPreloaded c = { c with rows := (addPreloaded c).rows, preloaded := [] }
    ∧ (∃ t, (addPreloaded c).rows = c.rows ++ t ∧ ∀ v ∈ t, v ∈ c.preloaded)
    ∧ (∀ v ∈ c.preloaded, v ∈ (addPreloaded c).rows)
    ∧ (c.rows.Nodup → (addPreloaded c).rows.Nodup) := by
  obtain ⟨i1, i2, i3, i4⟩ := foldl_appendRow_grows c.preloaded { c with preloaded := [] }
  refine ⟨?_, i2, i3, i4⟩
  unfold addPreloaded
  rw [i1]

/-! ## The success handler -/

theorem take_min_length (l : List UserId) (k : Nat) :
    l.take (min l.length k) = l.take k ∧ l.drop (min l.length k) = l.drop k := by
  by_cases h : k ≤ l.length
  · rw [Nat.min_eq_right h]
    exact ⟨rfl, rfl⟩
  · have h2 : l.length ≤ k := by omega
    rw [Nat.min_eq_left h2, List.take_length, List.drop_length,
      List.take_of_length_le h2, List.drop_of_length_le h2]
    exact ⟨rfl, rfl⟩

theorem wrapInt32_of_inInt32 (x : Int) (h : inInt32 x = true) : wrapInt32 x = x := by
  simp only [inInt32, decide_eq_true_eq] at h
  unfold wrapInt32
  rw [Int.emod_eq_of_lt (by omega) (by omega)]
  omega

theorem loadDone_next (limit : Int) (loaded : UserId → Bool) (result : VotesList)
    (c : ListController) (hnext : result.nextOffset ≠ "") :
    loadDone limit loaded result c =
      { addVotes loaded result.votes (limit - kLeavePreloaded)
          { c with offset := result.nextOffset } with
        fullCount := result.count,
        leftToLoad := wrapInt32 (result.count - peerListFullRowsCount
          (addVotes loaded result.votes (limit - kLeavePreloaded)
            { c with offset := result.nextOffset }).rows),
        loadRequestId := 0 } := by
  have ho : (addVotes loaded result.votes (limit - kLeavePreloaded)
      { c with offset := result.nextOffset }).offset = result.nextOffset := by
    rw [addVotes_frame]
  simp only [loadDone, ho, isEmpty, hnext, decide_False, Bool.false_eq_true, if_false]

theorem loadDone_end (limit : Int) (loaded : UserId → Bool) (result : VotesList)
    (c : ListController) (hend : result.nextOffset = "") :
    loadDone limit loaded result c =
      { addPreloaded (addVotes loaded result.votes (limit - kLeavePreloaded)
          { c with offset := result.nextOffset }) with
        fullCount := peerListFullRowsCount
          (addPreloaded (addVotes loaded result.votes (limit - kLeavePreloaded)
            { c with offset := result.nextOffset })).rows,
        leftToLoad := 0,
        loadRequestId := 0 } := by
  have ho : (addVotes loaded result.votes (limit - kLeavePreloaded)
      { c with offset := result.nextOffset }).offset = result.nextOffset := by
    rw [addVotes_frame]
  simp only [loadDone, ho]
  simp only [isEmpty, hend, decide_True, if_true]

/-- C3: a request sent by `loadMoreRows` asks for L = 15 voters when the cursor
is empty and L = 50 otherwise. When it succeeds with a non-empty next cursor,
a total `count` and voters that are all resolvable, distinct and not yet
visible, the first min(n, L-5) voters are appended to the visible list, the
others to the preload buffer in response order, the cursor is the returned one,
the total is `count`, the remaining count is `count` minus the number of rows
now visible, and no request is in flight. The remaining count is computed in a
32-bit `int`: `hfit` says that the difference is a value of that type. -/
theorem loadMoreRows_done_next (it : HistoryItem) (loaded : UserId → Bool)
    (result : VotesList) (c : ListController)
    (hwf : c.api.WellFormed) (hreq : c.loadRequestId = 0) (hleft : c.leftToLoad ≠ 0)
    (hcur : c.offset = "" ∨ c.loadForOffset = c.offset) (hit : it.isServerMsgId = true)
    (hnext : result.nextOffset ≠ "") (hl : ∀ u ∈ result.votes, loaded u = true)
    (hn : result.votes.Nodup) (hd : ∀ u ∈ result.votes, u ∉ c.rows)
    (hfit : inInt32
      (result.count - ((loadThenDone it loaded result c).rows.length : Int)) = true) :
    (∃ req, (loadMoreRows (some it) c).api.pending
          = c.api.pending ++ [((loadMoreRows (some it) c).loadRequestId, req)]
        ∧ (loadMoreRows (some it) c).loadRequestId ≠ 0
        ∧ req.offset = c.offset
        ∧ req.limit = ((if c.offset = "" then 15 else 50 : Nat) : Int))
    ∧ (loadThenDone it loaded result c).rows = c.rows ++ result.votes.take
        (min result.votes.length ((if c.offset = "" then 15 else 50) - 5))
    ∧ (loadThenDone it loaded result c).preloaded = c.preloaded ++ result.votes.drop
        (min result.votes.length ((if c.offset = "" then 15 else 50) - 5))
    ∧ (loadThenDone it loaded result c).offset = result.nextOffset
    ∧ (loadThenDone it loaded result c).fullCount = result.count
    ∧ (loadThenDone it loaded result c).leftToLoad
        = result.count - ((loadThenDone it loaded result c).rows.length : Int)
    ∧ (loadThenDone it loaded result c).loadRequestId = 0
    ∧ (loadThenDone it loaded result c).api.pending = c.api.pending := by
  obtain ⟨hlook, hcancel⟩ := send_then_cancel c.api (pollVotesRequest it c.offset) hwf
  have hlim : (pollVotesRequest it c.offset).limit - kLeavePreloaded
      = (((if c.offset = "" then 15 else 50) - 5 : Nat) : Int) := by
    by_cases ho : c.offset = "" <;>
      simp [pollVotesRequest, isEmpty, ho, kFirstPage, kPerPage, kLeavePreloaded]
  have hlim2 : (pollVotesRequest it c.offset).limit
      = ((if c.offset = "" then 15 else 50 : Nat) : Int) := by
    by_cases ho : c.offset = "" <;>
      simp [pollVotesRequest, isEmpty, ho, kFirstPage, kPerPage]
  have hd2 : ∀ u ∈ result.votes,
      u ∉ ({ c with api := { c.api with lastId := c.api.lastId + 1 },
                    loadRequestId := c.api.lastId + 1,
                    offset := result.nextOffset } : ListController).rows := hd
  have key : loadThenDone it loaded result c =
      { c with api := { c.api with lastId := c.api.lastId + 1 },
               offset := result.nextOffset,
               rows := c.rows ++ result.votes.take ((if c.offset = "" then 15 else 50) - 5),
               preloaded := c.preloaded
                 ++ result.votes.drop ((if c.offset = "" then 15 else 50) - 5),
               fullCount := result.count,
               leftToLoad := wrapInt32 (result.count - ((c.rows ++ result.votes.take
                 ((if c.offset = "" then 15 else 50) - 5)).length : Int)),
               loadRequestId := 0 } := by
    unfold loadThenDone
    rw [loadMoreRows_sends it c hreq hleft hcur hit]
    simp only [deliverDone, hlook, hcancel]
    rw [loadDone_next _ _ _ _ hnext, hlim, addVotes_exact loaded result.votes _ _ hl hn hd2]
    simp [peerListFullRowsCount]
  have hw : wrapInt32 (result.count - ((c.rows ++ result.votes.take
      ((if c.offset = "" then 15 else 50) - 5)).length : Int))
      = result.count - ((c.rows ++ result.votes.take
        ((if c.offset = "" then 15 else 50) - 5)).length : Int) := by
    apply wrapInt32_of_inInt32
    rw [key] at hfit
    exact hfit
  rw [hw] at key
  obtain ⟨ht, hdr⟩ := take_min_length result.votes ((if c.offset = "" then 15 else 50) - 5)
  rw [ht, hdr, key, loadMoreRows_sends it c hreq hleft hcur hit]
  refine ⟨⟨pollVotesRequest it c.offset, rfl, ?_, rfl, hlim2⟩, rfl, rfl, rfl, rfl, rfl, rfl, rfl⟩
  simp

/-- C3 witness: the first page of an answer with 60 votes (15 voters, total
60) leaves 10 visible rows, 5 preloaded voters and 50 remaining. -/
theorem loadMoreRows_done_next_witness :
    (loadThenDone sampleItem (fun _ => true) sampleFirstPage (ListController.create 60)).rows
        = [1, 2, 3, 4, 5, 6, 7, 8, 9, 10]
    ∧ (loadThenDone sampleItem (fun _ => true) sampleFirstPage
        (ListController.create 60)).preloaded = [11, 12, 13, 14, 15]
    ∧ (loadThenDone sampleItem (fun _ => true) sampleFirstPage
        (ListController.create 60)).leftToLoad = 50 := by
  have h := loadMoreRows_done_next sampleItem (fun _ => true) sampleFirstPage
    (ListController.create 60) (by simp [Sender.WellFormed, ListController.create])
    (by decide) (by decide) (by decide) (by decide) (by decide) (by simp) (by decide)
    (by simp [ListController.create]) (by decide)
  obtain ⟨_, h1, h2, _, _, h3, _, _⟩ := h
  refine ⟨h1.trans (by decide), h2.trans (by decide), h3.trans ?_⟩
  rw [h1]
  decide

theorem loadDone_end_props (limit : Int) (loaded : UserId → Bool) (result : VotesList)
    (c : ListController) (hend : result.nextOffset = "") :
    (loadDone limit loaded result c).leftToLoad = 0
    ∧ (loadDone limit loaded result c).preloaded = []
    ∧ (loadDone limit loaded result c).offset = ""
    ∧ (loadDone limit loaded result c).loadRequestId = 0
    ∧ (loadDone limit loaded result c).api = c.api
    ∧ (∀ u ∈ c.rows, u ∈ (loadDone limit loaded result c).rows)
    ∧ (∀ u ∈ c.preloaded, u ∈ (loadDone limit loaded result c).rows)
    ∧ (∀ u ∈ result.votes, loaded u = true → u ∈ (loadDone limit loaded result c).rows) := by
  rw [loadDone_end limit loaded result c hend]
  obtain ⟨a1, a2, a3, a4, a5, a6⟩ := addVotes_grows loaded result.votes
    (limit - kLeavePreloaded) { c with offset := result.nextOffset }
  have af := addVotes_frame loaded result.votes
    (limit - kLeavePreloaded) { c with offset := result.nextOffset }
  obtain ⟨p1, ⟨t, p2, p3⟩, p4, p5⟩ := addPreloaded_grows
    (addVotes loaded result.votes (limit - kLeavePreloaded)
      { c with offset := result.nextOffset })
  have hsub : ∀ u ∈ (addVotes loaded result.votes (limit - kLeavePreloaded)
      { c with offset := result.nextOffset }).rows,
      u ∈ (addPreloaded (addVotes loaded result.votes (limit - kLeavePreloaded)
        { c with offset := result.nextOffset })).rows := by
    intro u hu
    rw [p2]
    exact List.mem_append_left _ hu
  refine ⟨rfl, ?_, ?_, rfl, ?_, ?_, ?_, ?_⟩
  · show (addPreloaded _).preloaded = []
    rw [p1]
  · show (addPreloaded _).offset = ""
    rw [p1, af]
    exact hend
  · show (addPreloaded _).api = c.api
    rw [p1, af]
  · intro u hu
    exact hsub u (a4 u hu)
  · intro u hu
    exact p4 u (a5 u hu)
  · intro u hu hl
    rcases a6 u hu hl with h | h
    · exact hsub u h
    · exact p4 u h

/-- C4: when a successful answer carries an empty next cursor, the success
handler leaves the remaining count at zero and the preload buffer empty, and
every voter that was in the preload buffer, and every resolvable voter of the
answer, is in the visible list (as is every row that was visible). -/
theorem deliverDone_last_page (id : Nat) (loaded : UserId → Bool) (result : VotesList)
    (c : ListController) (hid : (c.api.pending.lookup id).isSome = true)
    (hend : result.nextOffset = "") :
    (deliverDone id loaded result c).leftToLoad = 0
    ∧ (deliverDone id loaded result c).preloaded = []
    ∧ (∀ u ∈ c.preloaded, u ∈ (deliverDone id loaded result c).rows)
    ∧ (∀ u ∈ result.votes, loaded u = true → u ∈ (deliverDone id loaded result c).rows)
    ∧ (∀ u ∈ c.rows, u ∈ (deliverDone id loaded result c).rows) := by
  obtain ⟨req, hreq⟩ := Option.isSome_iff_exists.mp hid
  simp only [deliverDone, hreq]
  obtain ⟨h1, h2, _, _, _, h6, h7, h8⟩ :=
    loadDone_end_props req.limit loaded result { c with api := c.api.cancel id } hend
  exact ⟨h1, h2, h7, h8, h6⟩

/-- C4 witness: the last page [4, 5] arrives while [3] is preloaded. -/
theorem deliverDone_last_page_witness :
    (sampleLoading.api.pending.lookup 2).isSome = true
    ∧ sampleLastPage.nextOffset = ""
    ∧ (deliverDone 2 (fun _ => true) sampleLastPage sampleLoading).leftToLoad = 0
    ∧ (deliverDone 2 (fun _ => true) sampleLastPage sampleLoading).preloaded = []
    ∧ 3 ∈ (deliverDone 2 (fun _ => true) sampleLastPage sampleLoading).rows :=
  ⟨by decide, by decide,
    (deliverDone_last_page 2 (fun _ => true) sampleLastPage sampleLoading
      (by decide) (by decide)).1,
    (deliverDone_last_page 2 (fun _ => true) sampleLastPage sampleLoading
      (by decide) (by decide)).2.1,
    (deliverDone_last_page 2 (fun _ => true) sampleLastPage sampleLoading
      (by decide) (by decide)).2.2.1 3 (by decide)⟩

/-! ## allowLoadMore -/

theorem loadMoreRows_keeps (item : Option HistoryItem) (c : ListController) :
    (loadMoreRows item c).rows = c.rows
    ∧ (loadMoreRows item c).preloaded = c.preloaded
    ∧ (loadMoreRows item c).offset = c.offset
    ∧ (loadMoreRows item c).loadForOffset = c.loadForOffset
    ∧ (loadMoreRows item c).fullCount = c.fullCount := by
  unfold loadMoreRows
  split_ifs with hg
  · exact ⟨rfl, rfl, rfl, rfl, rfl⟩
  · cases item with
    | none => exact ⟨rfl, rfl, rfl, rfl, rfl⟩
    | some it =>
      by_cases hs : it.isServerMsgId = false
      · simp [hs]
      · simp [hs]

/-- C7: `allowLoadMore` first makes the load-permitted cursor equal to the
cursor, then moves the preload buffer into the visible list (the rows already
visible stay in place, every preloaded voter is visible afterwards, the buffer
is empty), then is `loadMoreRows` on that state; so it sends a request whenever
no request is in flight, the remaining count is not zero and the context
message exists with a server id. -/
theorem allowLoadMore_spec (item : Option HistoryItem) (c : ListController) :
    allowLoadMore item c = loadMoreRows item (allowLoadMoreFlushed c)
    ∧ allowLoadMoreFlushed c =
        { c with loadForOffset := c.offset, preloaded := [],
                 rows := (allowLoadMoreFlushed c).rows }
    ∧ (∃ t, (allowLoadMoreFlushed c).rows = c.rows ++ t ∧ ∀ v ∈ t, v ∈ c.preloaded)
    ∧ (∀ v ∈ c.preloaded, v ∈ (allowLoadMoreFlushed c).rows)
    ∧ (allowLoadMore item c).rows = (allowLoadMoreFlushed c).rows
    ∧ (allowLoadMore item c).preloaded = []
    ∧ (allowLoadMore item c).loadForOffset = c.offset
    ∧ (allowLoadMore item c).offset = c.offset
    ∧ (∀ it, c.loadRequestId = 0 → c.leftToLoad ≠ 0 → item = some it →
        it.isServerMsgId = true →
        (allowLoadMore item c).loadRequestId = c.api.lastId + 1
        ∧ (allowLoadMore item c).api.pending
            = c.api.pending ++ [(c.api.lastId + 1, pollVotesRequest it c.offset)]) := by
  obtain ⟨p1, p2, p3, _⟩ := addPreloaded_grows { c with loadForOffset := c.offset }
  have hfl : allowLoadMoreFlushed c =
      { c with loadForOffset := c.offset, preloaded := [],
               rows := (allowLoadMoreFlushed c).rows } := by
    unfold allowLoadMoreFlushed
    rw [p1]
  have hall : allowLoadMore item c = loadMoreRows item (allowLoadMoreFlushed c) := rfl
  obtain ⟨k1, k2, k3, k4, _⟩ := loadMoreRows_keeps item (allowLoadMoreFlushed c)
  refine ⟨hall, hfl, p2, p3, ?_, ?_, ?_, ?_, ?_⟩
  · rw [hall, k1]
  · rw [hall, k2, hfl]
  · rw [hall, k4, hfl]
  · rw [hall, k3, hfl]
  · intro it h1 h2 hi hs
    subst hi
    have e := loadMoreRows_sends it (allowLoadMoreFlushed c)
      (by rw [hfl]; exact h1) (by rw [hfl]; exact h2) (Or.inr (by rw [hfl])) hs
    rw [hall, e]
    constructor
    · show (allowLoadMoreFlushed c).api.lastId + 1 = _
      rw [hfl]
    · show ((allowLoadMoreFlushed c).api.send _).2.pending = _
      rw [hfl]
      rfl

/-- C7 witness: "show more" after a first page makes the preloaded voter
visible and asks for the next page. -/
theorem allowLoadMore_spec_witness :
    (allowLoadMore (some sampleItem) sampleWaiting).rows = [1, 2, 3]
    ∧ (allowLoadMore (some sampleItem) sampleWaiting).loadRequestId = 2 :=
  ⟨((allowLoadMore_spec (some sampleItem) sampleWaiting).2.2.2.2.1).trans (by decide),
    ((allowLoadMore_spec (some sampleItem) sampleWaiting).2.2.2.2.2.2.2.2 sampleItem
      (by decide) (by decide) rfl (by decide)).1⟩

/-! ## The remaining count -/

theorem filterMap_createRestoredRow (l : List UserId) :
    l.filterMap createRestoredRow = l := by
  induction l with
  | nil => rfl
  | cons a l ih => simp [List.filterMap_cons, createRestoredRow, createRow, ih]

theorem restoreState_saveState_eq (item : Option HistoryItem) (s t : ListController) :
    restoreState item (some (saveState s)) t =
      { (if s.loadRequestId ≠ 0 then
          loadMoreRows item
            { rows := t.rows, api := apiAfterCancel t, offset := s.offset, loadRequestId := 0,
              loadForOffset := s.loadForOffset, preloaded := s.preloaded,
              leftToLoad := t.leftToLoad, fullCount := t.fullCount }
        else
          { rows := t.rows, api := apiAfterCancel t, offset := s.offset, loadRequestId := 0,
            loadForOffset := s.loadForOffset, preloaded := s.preloaded,
            leftToLoad := t.leftToLoad, fullCount := t.fullCount }) with
        leftToLoad := s.leftToLoad, fullCount := s.fullCount, rows := s.rows } := by
  have hc : (if t.loadRequestId ≠ 0 then
        { t with loadRequestId := 0, api := t.api.cancel t.loadRequestId }
      else t)
      = { t with loadRequestId := 0, api := apiAfterCancel t } := by
    by_cases ht : t.loadRequestId = 0
    · simp only [apiAfterCancel, ht, ne_eq, not_true_eq_false, if_false]
      rw [← ht]
    · simp only [apiAfterCancel, ht, ne_eq, not_false_eq_true, if_true]
  simp only [restoreState, saveState, PeerListController.saveState,
    PeerListController.restoreState, filterMap_createRestoredRow, hc]
  by_cases hs : s.loadRequestId = 0
  · simp [hs]
  · simp [hs]

/-- C5, as the code has it: restoring into `t` what `saveState` saved of `s`
gives the visible list, cursor, load-permitted cursor, remaining count, total
count and preload buffer of `s`, and cancels the request `t` tracked. When no
request was in flight in `s` nothing is sent. When one was in flight (the cursor
of `s` being empty or its load-permitted cursor), the remaining count of `t`
is not zero and the context message exists with a server id, exactly one
request is sent, for the cursor of `s`. -/
theorem restoreState_saveState (item : Option HistoryItem) (s t : ListController) :
    (restoreState item (some (saveState s)) t).rows = s.rows
    ∧ (restoreState item (some (saveState s)) t).offset = s.offset
    ∧ (restoreState item (some (saveState s)) t).loadForOffset = s.loadForOffset
    ∧ (restoreState item (some (saveState s)) t).leftToLoad = s.leftToLoad
    ∧ (restoreState item (some (saveState s)) t).fullCount = s.fullCount
    ∧ (restoreState item (some (saveState s)) t).preloaded = s.preloaded
    ∧ (s.loadRequestId = 0 →
        (restoreState item (some (saveState s)) t).api = apiAfterCancel t
        ∧ (restoreState item (some (saveState s)) t).loadRequestId = 0)
    ∧ (∀ it, s.loadRequestId ≠ 0 → s.offset = "" ∨ s.loadForOffset = s.offset →
        t.leftToLoad ≠ 0 → item = some it → it.isServerMsgId = true →
        (restoreState item (some (saveState s)) t).api.pending
            = (apiAfterCancel t).pending
              ++ [((apiAfterCancel t).lastId + 1, pollVotesRequest it s.offset)]
        ∧ (restoreState item (some (saveState s)) t).loadRequestId
            = (apiAfterCancel t).lastId + 1) := by
  rw [restoreState_saveState_eq]
  by_cases hs : s.loadRequestId = 0
  · rw [if_neg (not_not.mpr hs)]
    exact ⟨rfl, rfl, rfl, rfl, rfl, rfl, fun _ => ⟨rfl, rfl⟩, fun it h => absurd hs h⟩
  · rw [if_pos hs]
    obtain ⟨_, k2, k3, k4, _⟩ := loadMoreRows_keeps item
      { rows := t.rows, api := apiAfterCancel t, offset := s.offset, loadRequestId := 0,
        loadForOffset := s.loadForOffset, preloaded := s.preloaded,
        leftToLoad := t.leftToLoad, fullCount := t.fullCount }
    refine ⟨rfl, k3, k4, rfl, rfl, k2, fun h => absurd h hs, ?_⟩
    intro it _ hcur hleft hi hsrv
    subst hi
    have e := loadMoreRows_sends it
      { rows := t.rows, api := apiAfterCancel t, offset := s.offset, loadRequestId := 0,
        loadForOffset := s.loadForOffset, preloaded := s.preloaded,
        leftToLoad := t.leftToLoad, fullCount := t.fullCount } rfl hleft hcur hsrv
    rw [e]
    exact ⟨rfl, rfl⟩

/-- C5 witness: a state saved with a request in flight is restored into a
fresh controller; one request for the saved cursor goes out. -/
theorem restoreState_saveState_witness :
    (restoreState (some sampleItem) (some (saveState sampleLoading))
        (ListController.create 6)).rows = [1, 2]
    ∧ (restoreState (some sampleItem) (some (saveState sampleLoading))
        (ListController.create 6)).api.pending = [(1, pollVotesRequest sampleItem "a")] :=
  ⟨(restoreState_saveState (some sampleItem) sampleLoading (ListController.create 6)).1,
    ((restoreState_saveState (some sampleItem) sampleLoading
      (ListController.create 6)).2.2.2.2.2.2.2 sampleItem (by decide) (by decide) (by decide)
      rfl (by decide)).1.trans (by decide)⟩

/-- C5 as stated fails: a request was in flight when the state was saved, yet
restoring sends nothing when the context message is gone, and nothing when the
controller restored into has nothing left to load. -/
theorem restoreState_no_fetch :
    sampleLoading.loadRequestId ≠ 0
    ∧ (restoreState none (some (saveState sampleLoading))
        (ListController.create 6)).api.pending = []
    ∧ (restoreState none (some (saveState sampleLoading))
        (ListController.create 6)).loadRequestId = 0
    ∧ (restoreState (some sampleItem) (some (saveState sampleLoading))
        sampleDrained).api.pending = []
    ∧ (restoreState (some sampleItem) (some (saveState sampleLoading))
        sampleDrained).loadRequestId = 0 := by
  decide

/-! ## Invariants along traces -/

theorem loadDone_api (limit : Int) (loaded : UserId → Bool) (result : VotesList)
    (c : ListController) :
    (loadDone limit loaded result c).api = c.api
    ∧ (loadDone limit loaded result c).loadRequestId = 0 := by
  by_cases hend : result.nextOffset = ""
  · obtain ⟨_, _, _, h4, h5, _⟩ := loadDone_end_props limit loaded result c hend
    exact ⟨h5, h4⟩
  · rw [loadDone_next _ _ _ _ hend]
    refine ⟨?_, rfl⟩
    show (addVotes _ _ _ _).api = c.api
    rw [addVotes_frame]

theorem loadMoreRows_cases (item : Option HistoryItem) (c : ListController) :
    ((loadMoreRows item c).api = c.api
      ∧ (loadMoreRows item c).loadRequestId = c.loadRequestId)
    ∨ (c.loadRequestId = 0 ∧ ∃ req, (loadMoreRows item c).api = (c.api.send req).2
        ∧ (loadMoreRows item c).loadRequestId = c.api.lastId + 1) := by
  unfold loadMoreRows
  split_ifs with hg
  · exact Or.inl ⟨rfl, rfl⟩
  · cases item with
    | none => exact Or.inl ⟨rfl, rfl⟩
    | some it =>
      by_cases hs : it.isServerMsgId = false
      · left
        simp [hs]
      · right
        have h0 : c.loadRequestId = 0 := by
          by_contra hne
          exact hg (Or.inl hne)
        refine ⟨h0, pollVotesRequest it c.offset, ?_, ?_⟩
        · simp [hs]
        · simp [hs, Sender.send]

theorem loadMoreRows_tracked (item : Option HistoryItem) (c : ListController)
    (h : Tracked c) : Tracked (loadMoreRows item c) := by
  rcases loadMoreRows_cases item c with ⟨e1, e2⟩ | ⟨h0, req, e1, e2⟩
  · unfold Tracked
    rw [e1, e2]
    exact h
  · rcases h with ⟨_, hp⟩ | ⟨hne, _⟩
    · right
      rw [e1, e2]
      exact ⟨by omega, req, by simp [Sender.send, hp]⟩
    · exact absurd h0 hne

theorem cancel_tracked (c : ListController) (h : Tracked c) (id : Nat)
    (hid : (c.api.pending.lookup id).isSome = true) :
    (c.api.cancel id).pending = [] := by
  rcases h with ⟨_, hp⟩ | ⟨_, req, hp⟩
  · rw [hp] at hid
    simp at hid
  · rw [hp] at hid
    have hi : id = c.loadRequestId := by
      by_contra hne
      have : (id == c.loadRequestId) = false := by simpa using hne
      simp [List.lookup, this] at hid
    simp [Sender.cancel, hp, hi]

theorem deliverDone_tracked (id : Nat) (loaded : UserId → Bool) (result : VotesList)
    (c : ListController) (h : Tracked c) : Tracked (deliverDone id loaded result c) := by
  unfold deliverDone
  cases hl : c.api.pending.lookup id with
  | none => exact h
  | some req =>
    have hc := cancel_tracked c h id (by rw [hl]; rfl)
    obtain ⟨a1, a2⟩ := loadDone_api req.limit loaded result { c with api := c.api.cancel id }
    left
    exact ⟨a2, by rw [a1]; exact hc⟩

theorem deliverFail_tracked (id : Nat) (c : ListController) (h : Tracked c) :
    Tracked (deliverFail id c) := by
  unfold deliverFail
  cases hl : c.api.pending.lookup id with
  | none => exact h
  | some req =>
    have hc := cancel_tracked c h id (by rw [hl]; rfl)
    left
    exact ⟨rfl, hc⟩

theorem allowLoadMore_tracked (item : Option HistoryItem) (c : ListController)
    (h : Tracked c) : Tracked (allowLoadMore item c) := by
  obtain ⟨p1, _⟩ := addPreloaded_grows { c with loadForOffset := c.offset }
  apply loadMoreRows_tracked
  rw [p1]
  exact h

theorem restoreState_tracked (item : Option HistoryItem) (state : Option PeerListState)
    (c : ListController) (h : Tracked c) : Tracked (restoreState item state c) := by
  unfold restoreState
  cases state with
  | none => exact h
  | some st =>
    obtain ⟨list, cs⟩ := st
    cases cs with
    | none => exact h
    | some my =>
      have h1 : Tracked (if c.loadRequestId ≠ 0 then
          { c with loadRequestId := 0, api := c.api.cancel c.loadRequestId } else c) := by
        by_cases hr : c.loadRequestId = 0
        · rw [if_neg (not_not.mpr hr)]
          exact h
        · rw [if_pos hr]
          rcases h with ⟨h0, _⟩ | ⟨_, req, hp⟩
          · exact absurd h0 hr
          · left
            exact ⟨rfl, by simp [Sender.cancel, hp]⟩
      have h2 : ∀ d : ListController, Tracked d →
          Tracked { d with offset := my.offset, loadForOffset := my.loadForOffset,
                           preloaded := my.preloaded } := fun d hd => hd
      have h3 : ∀ d : ListController, Tracked d →
          Tracked (if my.wasLoading = true then loadMoreRows item d else d) := by
        intro d hd
        by_cases hw : my.wasLoading = true
        · rw [if_pos hw]
          exact loadMoreRows_tracked item d hd
        · rw [if_neg hw]
          exact hd
      exact h3 _ (h2 _ h1)

theorem step_tracked (c : ListController) (e : Event) (h : Tracked c) :
    Tracked (step c e) := by
  cases e with
  | loadMoreRows item => exact loadMoreRows_tracked item c h
  | allowLoadMore item => exact allowLoadMore_tracked item c h
  | done id loaded result => exact deliverDone_tracked id loaded result c h
  | fail id => exact deliverFail_tracked id c h
  | saveState => exact h
  | restoreState item state => exact restoreState_tracked item state c h

theorem run_tracked (events : List Event) (c : ListController) (h : Tracked c) :
    Tracked (run c events) := by
  induction events generalizing c with
  | nil => exact h
  | cons e es ih => exact ih (step c e) (step_tracked c e h)

/-- C8: in every state the controller reaches from its construction by calls
of `loadMoreRows`, `allowLoadMore`, `saveState` and `restoreState` and by
requests succeeding or failing, its sender has at most one request outstanding,
the request id the controller holds is non-zero exactly when one is
outstanding, and the outstanding request is the one under that id. -/
theorem one_request_in_flight (votes : Int) (events : List Event) :
    (run (ListController.create votes) events).api.pending.length ≤ 1
    ∧ ((run (ListController.create votes) events).loadRequestId ≠ 0
        ↔ (run (ListController.create votes) events).api.pending ≠ [])
    ∧ (∀ p ∈ (run (ListController.create votes) events).api.pending,
        p.1 = (run (ListController.create votes) events).loadRequestId) := by
  have h : Tracked (run (ListController.create votes) events) :=
    run_tracked events _ (Or.inl ⟨rfl, rfl⟩)
  rcases h with ⟨h0, hp⟩ | ⟨hne, req, hp⟩
  · rw [hp, h0]
    simp
  · rw [hp]
    simp [hne]

theorem within_of_eq (known : List UserId) (c d : ListController)
    (h1 : d.rows = c.rows) (h2 : d.preloaded = c.preloaded) (h : Within known c) :
    Within known d := by
  unfold Within
  rw [h1, h2]
  exact h

theorem within_mono (known more : List UserId) (c : ListController)
    (h : Within known c) : Within (known ++ more) c :=
  ⟨h.1, fun u hu => List.mem_append_left _ (h.2.1 u hu),
    fun u hu => List.mem_append_left _ (h.2.2 u hu)⟩

theorem addPreloaded_within (known : List UserId) (c : ListController)
    (h : Within known c) : Within known (addPreloaded c) := by
  obtain ⟨p1, ⟨t, p2, p3⟩, _, p5⟩ := addPreloaded_grows c
  refine ⟨p5 h.1, ?_, ?_⟩
  · intro u hu
    rw [p2] at hu
    rcases List.mem_append.mp hu with hu | hu
    · exact h.2.1 u hu
    · exact h.2.2 u (p3 u hu)
  · intro u hu
    rw [p1] at hu
    simp at hu

theorem addVotes_within (known : List UserId) (loaded : UserId → Bool)
    (votes : List UserId) (add : Int) (c : ListController) (h : Within known c) :
    Within (known ++ votes.filter loaded) (addVotes loaded votes add c) := by
  obtain ⟨a1, a2, a3, _⟩ := addVotes_grows loaded votes add c
  refine ⟨a3 h.1, ?_, ?_⟩
  · intro u hu
    rcases a1 u hu with hu | ⟨hu, hl⟩
    · exact List.mem_append_left _ (h.2.1 u hu)
    · exact List.mem_append_right _ (List.mem_filter.mpr ⟨hu, hl⟩)
  · intro u hu
    rcases a2 u hu with hu | ⟨hu, hl⟩
    · exact List.mem_append_left _ (h.2.2 u hu)
    · exact List.mem_append_right _ (List.mem_filter.mpr ⟨hu, hl⟩)

theorem loadDone_within (known : List UserId) (limit : Int) (loaded : UserId → Bool)
    (result : VotesList) (c : ListController) (h : Within known c) :
    Within (known ++ result.votes.filter loaded) (loadDone limit loaded result c) := by
  have hA := addVotes_within known loaded result.votes (limit - kLeavePreloaded)
    { c with offset := result.nextOffset } h
  by_cases hend : result.nextOffset = ""
  · rw [loadDone_end _ _ _ _ hend]
    exact within_of_eq _ _ _ rfl rfl (addPreloaded_within _ _ hA)
  · rw [loadDone_next _ _ _ _ hend]
    exact within_of_eq _ _ _ rfl rfl hA

theorem step_within (known : List UserId) (c : ListController) (e : Event)
    (he : e.isPaging = true) (h : Within known c) :
    Within (known ++ deliveredVoters c [e]) (step c e) := by
  cases e with
  | loadMoreRows item =>
    obtain ⟨k1, k2, _⟩ := loadMoreRows_keeps item c
    exact within_mono _ _ _ (within_of_eq _ _ _ k1 k2 h)
  | allowLoadMore item =>
    obtain ⟨k1, k2, _⟩ := loadMoreRows_keeps item (allowLoadMoreFlushed c)
    apply within_mono
    apply within_of_eq _ _ _ k1 k2
    exact addPreloaded_within _ _ h
  | done id loaded result =>
    simp only [deliveredVoters, step, deliverDone, List.append_nil]
    cases hl : c.api.pending.lookup id with
    | none =>
      simp only [Option.isSome_none, Bool.false_eq_true, if_false, List.append_nil]
      exact h
    | some req =>
      simp only [Option.isSome_some, if_true]
      exact loadDone_within known req.limit loaded result _ h
  | fail id =>
    apply within_mono
    simp only [step, deliverFail]
    cases hl : c.api.pending.lookup id with
    | none => exact h
    | some req => exact h
  | saveState => simp [Event.isPaging] at he
  | restoreState item state => simp [Event.isPaging] at he

theorem deliveredVoters_cons (c : ListController) (e : Event) (es : List Event) :
    deliveredVoters c (e :: es) = deliveredVoters c [e] ++ deliveredVoters (step c e) es := by
  cases e <;> simp [deliveredVoters]

theorem run_within (events : List Event) (known : List UserId) (c : ListController)
    (he : ∀ e ∈ events, e.isPaging = true) (h : Within known c) :
    Within (known ++ deliveredVoters c events) (run c events) := by
  induction events generalizing known c with
  | nil =>
    simp only [deliveredVoters, List.append_nil]
    exact h
  | cons e es ih =>
    have h1 := step_within known c e (he e (List.mem_cons_self _ _)) h
    have h2 := ih (known ++ deliveredVoters c [e]) (step c e)
      (fun x hx => he x (List.mem_cons_of_mem _ hx)) h1
    rw [deliveredVoters_cons, ← List.append_assoc]
    exact h2

theorem length_le_dedup (l known : List UserId) (hn : l.Nodup) (hs : ∀ u ∈ l, u ∈ known) :
    l.length ≤ known.dedup.length := by
  rw [← List.toFinset_card_of_nodup hn, ← List.card_toFinset]
  apply Finset.card_le_card
  intro u hu
  rw [List.mem_toFinset] at hu ⊢
  exact hs u hu

/-- C6, as the code has it: over any sequence of `loadMoreRows` and
`allowLoadMore` calls and of requests succeeding or failing, from the initial
state, no voter is visible twice, every visible voter is a resolvable voter of
an answer that was delivered, and so the number of visible rows never exceeds
the number of distinct resolvable voters delivered so far. -/
theorem rows_within_delivered (votes : Int) (events : List Event)
    (he : ∀ e ∈ events, e.isPaging = true) :
    (run (ListController.create votes) events).rows.Nodup
    ∧ (∀ u ∈ (run (ListController.create votes) events).rows,
        u ∈ deliveredVoters (ListController.create votes) events)
    ∧ (run (ListController.create votes) events).rows.length
        ≤ (deliveredVoters (ListController.create votes) events).dedup.length := by
  have h0 : Within [] (ListController.create votes) :=
    ⟨List.nodup_nil, by simp [ListController.create], by simp [ListController.create]⟩
  have h := run_within events [] (ListController.create votes) he h0
  rw [List.nil_append] at h
  exact ⟨h.1, h.2.1, length_le_dedup _ _ h.1 h.2.1⟩

/-- C6 witness: the trace in which an answer gets a vote while paged. -/
theorem rows_within_delivered_witness :
    (∀ e ∈ sampleGrowing, e.isPaging = true)
    ∧ (run (ListController.create 3) sampleGrowing).rows.length
        ≤ (deliveredVoters (ListController.create 3) sampleGrowing).dedup.length :=
  ⟨by decide, (rows_within_delivered 3 sampleGrowing (by decide)).2.2⟩

/-- C6 as stated fails: the first successful answer reports 3 votes in total,
the last page reports 4, and 4 rows end up visible. -/
theorem rows_exceed_first_count :
    (∀ e ∈ sampleGrowing, e.isPaging = true)
    ∧ (run (ListController.create 3) (sampleGrowing.take 2)).fullCount = 3
    ∧ (run (ListController.create 3) (sampleGrowing.take 2)).rows = [1, 2]
    ∧ (run (ListController.create 3) sampleGrowing).rows = [1, 2, 3, 4]
    ∧ sampleGrowingFirst.count
        < ((run (ListController.create 3) sampleGrowing).rows.length : Int) := by
  decide

/-! ## Reachable states -/

theorem loadMoreRows_shape (item : Option HistoryItem) (c : ListController) :
    loadMoreRows item c = c
    ∨ loadMoreRows item c = { c with leftToLoad := 0 }
    ∨ (c.loadRequestId = 0 ∧ c.leftToLoad ≠ 0 ∧ (c.offset = "" ∨ c.loadForOffset = c.offset)
        ∧ ∃ it, loadMoreRows item c =
            { c with api := (c.api.send (pollVotesRequest it c.offset)).2,
                     loadRequestId := c.api.lastId + 1 }) := by
  unfold loadMoreRows
  split_ifs with hg
  · exact Or.inl rfl
  · cases item with
    | none => exact Or.inr (Or.inl rfl)
    | some it =>
      by_cases hs : it.isServerMsgId = false
      · right; left
        simp [hs]
      · right; right
        simp only [isEmpty, decide_eq_false_iff_not, not_or, not_and, not_not] at hg
        obtain ⟨g1, g2, g3⟩ := hg
        refine ⟨g1, g2, ?_, it, ?_⟩
        · by_cases ho : c.offset = ""
          · exact Or.inl ho
          · exact Or.inr (g3 ho)
        · simp [hs, Sender.send]

theorem loadMoreRows_agree (item : Option HistoryItem) (c : ListController)
    (h : CursorsAgree c) : CursorsAgree (loadMoreRows item c) := by
  rcases loadMoreRows_shape item c with e | e | ⟨h1, h2, h3, it, e⟩
  · rw [e]; exact h
  · rw [e]
    intro hne
    exact ⟨(h hne).1, fun _ => rfl⟩
  · rw [e]
    intro hne
    exfalso
    have hne2 : c.loadForOffset ≠ c.offset := hne
    rcases h3 with h3 | h3
    · exact h2 ((h hne2).2 h3)
    · exact hne2 h3

theorem loadDone_agree (limit : Int) (loaded : UserId → Bool) (result : VotesList)
    (c : ListController) : CursorsAgree (loadDone limit loaded result c) := by
  intro _
  refine ⟨(loadDone_api limit loaded result c).2, ?_⟩
  intro ho
  by_cases hend : result.nextOffset = ""
  · exact (loadDone_end_props limit loaded result c hend).1
  · exfalso
    rw [loadDone_next _ _ _ _ hend] at ho
    have : (addVotes loaded result.votes (limit - kLeavePreloaded)
        { c with offset := result.nextOffset }).offset = "" := ho
    rw [addVotes_frame] at this
    exact hend this

theorem step_agree (c : ListController) (e : Event) (he : e.isPaging = true)
    (h : CursorsAgree c) : CursorsAgree (step c e) := by
  cases e with
  | loadMoreRows item => exact loadMoreRows_agree item c h
  | allowLoadMore item =>
    apply loadMoreRows_agree
    obtain ⟨p1, _⟩ := addPreloaded_grows { c with loadForOffset := c.offset }
    intro hne
    exfalso
    apply hne
    show (addPreloaded _).loadForOffset = (addPreloaded _).offset
    rw [p1]
  | done id loaded result =>
    simp only [step, deliverDone]
    cases hl : c.api.pending.lookup id with
    | none => exact h
    | some req => exact loadDone_agree _ _ _ _
  | fail id =>
    simp only [step, deliverFail]
    cases hl : c.api.pending.lookup id with
    | none => exact h
    | some req =>
      intro hne
      exact ⟨rfl, (h hne).2⟩
  | saveState => simp [Event.isPaging] at he
  | restoreState item state => simp [Event.isPaging] at he

theorem restoreState_agree (item : Option HistoryItem) (s t : ListController)
    (h : CursorsAgree s) : CursorsAgree (restoreState item (some (saveState s)) t) := by
  rw [restoreState_saveState_eq]
  by_cases hs : s.loadRequestId = 0
  · rw [if_neg (not_not.mpr hs)]
    intro hne
    exact ⟨rfl, (h hne).2⟩
  · rw [if_pos hs]
    obtain ⟨_, _, k3, k4, _⟩ := loadMoreRows_keeps item
      { rows := t.rows, api := apiAfterCancel t, offset := s.offset, loadRequestId := 0,
        loadForOffset := s.loadForOffset, preloaded := s.preloaded,
        leftToLoad := t.leftToLoad, fullCount := t.fullCount }
    intro hne
    exfalso
    apply hs
    apply (h _).1
    intro e
    apply hne
    show (loadMoreRows item _).loadForOffset = (loadMoreRows item _).offset
    rw [k3, k4]
    exact e

theorem reachable_agree (c : ListController) (h : Reachable c) : CursorsAgree c := by
  induction h with
  | create votes =>
    intro hne
    exact absurd rfl hne
  | step c e _ he ih => exact step_agree c e he ih
  | restore item s t _ _ ihs _ => exact restoreState_agree item s t ihs

theorem reachable_run (events : List Event) (c : ListController) (hc : Reachable c)
    (he : ∀ e ∈ events, e.isPaging = true) : Reachable (run c events) := by
  induction events generalizing c with
  | nil => exact hc
  | cons e es ih =>
    exact ih (step c e) (Reachable.step c e hc (he e (List.mem_cons_self _ _)))
      (fun x hx => he x (List.mem_cons_of_mem _ hx))

/-- C1: in every state the controller can be in (built by the constructor,
changed by paging events, restored from a saved state), `loadMoreRows` sends
nothing and leaves the whole controller unchanged (cursor, load-permitted
cursor, request id, remaining and total count, preload buffer, visible rows,
outstanding requests) when a request is in flight, when the remaining count is
zero, or when the load-permitted cursor differs from the cursor. The guard of
the code lets an empty cursor pass, but a state with an empty cursor and
another load-permitted cursor has nothing left to load. -/
theorem loadMoreRows_noop_reachable (item : Option HistoryItem) (c : ListController)
    (hc : Reachable c)
    (h : c.loadRequestId ≠ 0 ∨ c.leftToLoad = 0 ∨ c.loadForOffset ≠ c.offset) :
    loadMoreRows item c = c := by
  apply loadMoreRows_blocked
  rcases h with h | h | h
  · exact Or.inl h
  · exact Or.inr (Or.inl h)
  · by_cases ho : c.offset = ""
    · exact Or.inr (Or.inl ((reachable_agree c hc h).2 ho))
    · exact Or.inr (Or.inr ⟨ho, h⟩)

/-- C1 witness: two reachable states in which the cursors differ. In the first
the first page has come and the user has not asked for more; in the second the
answer was paged to its end, so the cursor is empty, the load-permitted cursor
is "a" and nothing remains to load. -/
theorem loadMoreRows_noop_reachable_witness :
    Reachable sampleAfterFirstPage
    ∧ sampleAfterFirstPage.loadForOffset ≠ sampleAfterFirstPage.offset
    ∧ loadMoreRows (some sampleItem) sampleAfterFirstPage = sampleAfterFirstPage
    ∧ (run (ListController.create 3) sampleGrowing).offset = ""
    ∧ (run (ListController.create 3) sampleGrowing).loadForOffset = "a"
    ∧ loadMoreRows (some sampleItem) (run (ListController.create 3) sampleGrowing)
        = run (ListController.create 3) sampleGrowing :=
  ⟨Reachable.step _ (.done 1 (fun _ => true) sampleFirstPage)
      (Reachable.step _ (.loadMoreRows (some sampleItem)) (Reachable.create 60) rfl) rfl,
    by decide,
    loadMoreRows_noop_reachable (some sampleItem) sampleAfterFirstPage
      (Reachable.step _ (.done 1 (fun _ => true) sampleFirstPage)
        (Reachable.step _ (.loadMoreRows (some sampleItem)) (Reachable.create 60) rfl) rfl)
      (Or.inr (Or.inr (by decide))),
    by decide, by decide,
    loadMoreRows_noop_reachable (some sampleItem) (run (ListController.create 3) sampleGrowing)
      (reachable_run sampleGrowing _ (Reachable.create 3) (by decide))
      (Or.inr (Or.inr (by decide)))⟩

theorem send_wellFormed (api : Sender) (req : GetPollVotes) (h : api.WellFormed) :
    (api.send req).2.WellFormed := by
  intro p hp
  simp only [Sender.send, List.mem_append, List.mem_singleton] at hp ⊢
  rcases hp with hp | hp
  · exact Nat.le_succ_of_le (h p hp)
  · rw [hp]

theorem cancel_wellFormed (api : Sender) (id : Nat) (h : api.WellFormed) :
    (api.cancel id).WellFormed := by
  intro p hp
  simp only [Sender.cancel] at hp ⊢
  exact h p (List.mem_filter.mp hp).1

theorem loadMoreRows_wellFormed (item : Option HistoryItem) (c : ListController)
    (h : c.api.WellFormed) : (loadMoreRows item c).api.WellFormed := by
  rcases loadMoreRows_shape item c with e | e | ⟨_, _, _, it, e⟩
  · rw [e]; exact h
  · rw [e]; exact h
  · rw [e]; exact send_wellFormed _ _ h

theorem step_wellFormed (c : ListController) (e : Event) (he : e.isPaging = true)
    (h : c.api.WellFormed) : (step c e).api.WellFormed := by
  cases e with
  | loadMoreRows item => exact loadMoreRows_wellFormed item c h
  | allowLoadMore item =>
    apply loadMoreRows_wellFormed
    obtain ⟨p1, _⟩ := addPreloaded_grows { c with loadForOffset := c.offset }
    rw [p1]
    exact h
  | done id loaded result =>
    simp only [step, deliverDone]
    cases hl : c.api.pending.lookup id with
    | none => exact h
    | some req =>
      simp only
      rw [(loadDone_api _ _ _ _).1]
      exact cancel_wellFormed _ _ h
  | fail id =>
    simp only [step, deliverFail]
    cases hl : c.api.pending.lookup id with
    | none => exact h
    | some req => exact cancel_wellFormed _ _ h
  | saveState => simp [Event.isPaging] at he
  | restoreState item state => simp [Event.isPaging] at he

theorem restoreState_wellFormed (item : Option HistoryItem) (s t : ListController)
    (h : t.api.WellFormed) :
    (restoreState item (some (saveState s)) t).api.WellFormed := by
  have ha : (apiAfterCancel t).WellFormed := by
    unfold apiAfterCancel
    split_ifs
    · exact cancel_wellFormed _ _ h
    · exact h
  rw [restoreState_saveState_eq]
  by_cases hs : s.loadRequestId = 0
  · rw [if_neg (not_not.mpr hs)]
    exact ha
  · rw [if_pos hs]
    exact loadMoreRows_wellFormed item _ ha

theorem step_nodup (c : ListController) (e : Event) (he : e.isPaging = true)
    (h : c.rows.Nodup) : (step c e).rows.Nodup :=
  (step_within (c.rows ++ c.preloaded) c e he
    ⟨h, fun _ hu => List.mem_append_left _ hu, fun _ hu => List.mem_append_right _ hu⟩).1

/-- X1: every state the controller can reach, restores included, tracks the one
request its sender has outstanding, has a well-formed sender, shows no voter
twice, and has a request in flight only while the load-permitted cursor is
the cursor. -/
theorem reachable_sound (c : ListController) (hc : Reachable c) :
    Tracked c ∧ c.api.WellFormed ∧ c.rows.Nodup
    ∧ (c.loadRequestId ≠ 0 → c.loadForOffset = c.offset) := by
  refine ⟨?_, ?_, ?_, ?_⟩
  · induction hc with
    | create votes => exact Or.inl ⟨rfl, rfl⟩
    | step c e _ _ ih => exact step_tracked c e ih
    | restore item s t _ _ _ iht => exact restoreState_tracked item _ t iht
  · induction hc with
    | create votes =>
      intro p hp
      simp [ListController.create] at hp
    | step c e _ he ih => exact step_wellFormed c e he ih
    | restore item s t _ _ _ iht => exact restoreState_wellFormed item s t iht
  · induction hc with
    | create votes => exact List.nodup_nil
    | step c e _ he ih => exact step_nodup c e he ih
    | restore item s t _ _ ihs _ =>
      rw [restoreState_saveState_eq]
      exact ihs
  · intro hne
    by_contra hd
    exact hne (reachable_agree c hc hd).1

/-- X1 witness: the state after the first page is reachable and sound. -/
theorem reachable_sound_witness :
    Reachable sampleAfterFirstPage
    ∧ sampleAfterFirstPage.api.WellFormed ∧ sampleAfterFirstPage.rows.Nodup :=
  ⟨Reachable.step _ (.done 1 (fun _ => true) sampleFirstPage)
      (Reachable.step _ (.loadMoreRows (some sampleItem)) (Reachable.create 60) rfl) rfl,
    (reachable_sound sampleAfterFirstPage
      (Reachable.step _ (.done 1 (fun _ => true) sampleFirstPage)
        (Reachable.step _ (.loadMoreRows (some sampleItem)) (Reachable.create 60) rfl)
        rfl)).2.1,
    (reachable_sound sampleAfterFirstPage
      (Reachable.step _ (.done 1 (fun _ => true) sampleFirstPage)
        (Reachable.step _ (.loadMoreRows (some sampleItem)) (Reachable.create 60) rfl)
        rfl)).2.2.1⟩

end Info.Polls
